import Mathlib

/-!
Verification of the flitz file-manager against its specification.

The definitions below are shallow embeddings of the Python source:
  - `src/flitz/file_explorer.py` (listing, search, font size, file creation),
  - `src/flitz/ui/details_pane.py` (listing order),
  - `src/flitz/events.py` (event bus),
  - `src/flitz/file_systems/basic_fs.py` (local adapter),
  - `src/flitz/file_systems/ftp_fs.py` (FTP adapter),
  - `src/flitz/actions/deletion.py` (multi-item deletion).

Python strings are modelled as `List Char` (Python compares strings
lexicographically by code point, which is exactly the `List.Lex` order on
`List Char`).  Machine-level aspects (actual OS calls, sockets, threads) are
modelled as explicit state passed to the functions; exceptions are modelled
with `Except` / `Option`.
-/

namespace Flitz

/-! ## Directory entries and the display sort

`FileExplorer.load_files` sorts with
`sorted(self.current_path.iterdir(), key=lambda x: (x.is_file(), x.name))`
and `DetailsPaneMixIn.load_files` sorts with
`key=lambda x: (isinstance(x, File), x.name)`.  Both keys are the pair
(is-file flag, name); Python orders pairs lexicographically with
`False < True` on booleans and code-point order on strings.  Python's
`sorted` is a stable sort by that key; we embed it as Mathlib's (stable)
insertion sort over the corresponding total preorder `entryLE`. -/

/-- A directory entry as used by the listing code: the is-file flag and the
name (the two components of the Python sort key). -/
structure FsEntry where
  is_file : Bool
  name : List Char
deriving DecidableEq, Repr

/-- The order induced by the Python sort key `(is_file, name)`:
lexicographic on the pair, with `False < True` and case-sensitive
code-point order on names. -/
def entryLE (a b : FsEntry) : Prop :=
  (a.is_file = false ∧ b.is_file = true) ∨ (a.is_file = b.is_file ∧ a.name ≤ b.name)

instance : DecidableRel entryLE := fun a b => by
  unfold entryLE
  exact inferInstance

instance : IsTotal FsEntry entryLE where
  total a b := by
    unfold entryLE
    cases ha : a.is_file <;> cases hb : b.is_file
    · rcases le_total a.name b.name with h | h
      · exact Or.inl (Or.inr ⟨rfl, h⟩)
      · exact Or.inr (Or.inr ⟨rfl, h⟩)
    · exact Or.inl (Or.inl ⟨rfl, rfl⟩)
    · exact Or.inr (Or.inl ⟨rfl, rfl⟩)
    · rcases le_total a.name b.name with h | h
      · exact Or.inl (Or.inr ⟨rfl, h⟩)
      · exact Or.inr (Or.inr ⟨rfl, h⟩)

instance : IsTrans FsEntry entryLE where
  trans a b c hab hbc := by
    unfold entryLE at hab hbc ⊢
    rcases hab with ⟨ha, hb⟩ | ⟨hab, hn⟩ <;> rcases hbc with ⟨hb2, hc⟩ | ⟨hbc, hn2⟩
    · rw [hb] at hb2
      cases hb2
    · exact Or.inl ⟨ha, hbc ▸ hb⟩
    · exact Or.inl ⟨hab.trans hb2, hc⟩
    · exact Or.inr ⟨hab.trans hbc, le_trans hn hn2⟩

/-- Embedding of `sorted(entries, key=lambda x: (x.is_file, x.name))`. -/
def sortEntries (l : List FsEntry) : List FsEntry :=
  List.insertionSort entryLE l

/-- Embedding of the rendering loop of `load_files`: the sorted entries,
with hidden entries skipped unless `show_hidden` is set
(`if not self.cfg.show_hidden_files and self.is_hidden(entry): continue`). -/
def load_files_rendered (show_hidden : Bool) (hidden : FsEntry → Bool)
    (l : List FsEntry) : List FsEntry :=
  (sortEntries l).filter (fun e => show_hidden || ! hidden e)

/-- C1: for every directory listing rendered for display, all folders come
before all files, and within each of the two groups entries are in
ascending, case-sensitive order by name.  Moreover the rendered list (with
hidden files shown) is a permutation of the directory contents. -/
theorem c1_listing_order (show_hidden : Bool) (hidden : FsEntry → Bool)
    (l : List FsEntry) :
    List.Pairwise
      (fun a b => (a.is_file = true → b.is_file = true) ∧
        (a.is_file = b.is_file → a.name ≤ b.name))
      (load_files_rendered show_hidden hidden l)
    ∧ (load_files_rendered true hidden l).Perm l := by
  constructor
  · apply List.Pairwise.filter
    apply List.Pairwise.imp ?_ (List.sorted_insertionSort entryLE l)
    intro a b hab
    rcases hab with ⟨ha, hb⟩ | ⟨hab, hn⟩
    · refine ⟨fun h => ?_, fun h => ?_⟩
      · rw [ha] at h
        cases h
      · rw [ha, hb] at h
        cases h
    · exact ⟨fun h => hab ▸ h, fun _ => hn⟩
  · have h1 : load_files_rendered true hidden l = sortEntries l := by
      unfold load_files_rendered
      simp
    rw [h1]
    exact List.perm_insertionSort entryLE l

/-! ## Event bus (`src/flitz/events.py`)

An `Event` holds a name and an ordered list of zero-argument listeners;
`consumed_by` appends a listener, `produce` calls each listener in list
order on the calling thread.  Listeners are side-effecting Python
callables; we model a listener as a transformer of an ambient state `σ`
and `produce` as the left fold that calls them first-to-last, which is
exactly the `for listener in self.listeners: listener()` loop. -/

/-- Embedding of the `Event` class: a name and the ordered listener list. -/
structure Event (σ : Type) where
  name : List Char
  listeners : List (σ → σ)

/-- Embedding of `Event.consumed_by`: `self.listeners.append(consumer)`. -/
def Event.consumed_by {σ : Type} (e : Event σ) (consumer : σ → σ) : Event σ :=
  { e with listeners := e.listeners ++ [consumer] }

/-- Embedding of `Event.produce`: `for listener in self.listeners: listener()`. -/
def Event.produce {σ : Type} (e : Event σ) (s : σ) : σ :=
  e.listeners.foldl (fun st f => f st) s

/-- A listener that records its own identifier in a shared log; used to
observe which listeners a `produce` call invokes, and in which order. -/
def logListener (i : Nat) : List Nat → List Nat :=
  fun log => log ++ [i]

theorem consumed_by_foldl_listeners {σ : Type} (f : Nat → σ → σ)
    (e : Event σ) (ids : List Nat) :
    (ids.foldl (fun ev i => ev.consumed_by (f i)) e).listeners
      = e.listeners ++ ids.map f := by
  induction ids generalizing e with
  | nil => simp
  | cons i rest ih =>
    rw [List.foldl_cons, ih]
    simp [Event.consumed_by]

theorem foldl_logListeners (ids : List Nat) (s : List Nat) :
    (ids.map logListener).foldl (fun st f => f st) s = s ++ ids := by
  induction ids generalizing s with
  | nil => simp
  | cons i rest ih => simp [logListener, ih]

/-- C5: registering listeners `ids` (in that order, via `consumed_by`) on a
channel and calling `produce` once invokes every registered listener exactly
once, in registration order: the invocation log extends the prior log by
exactly `ids`.  Delivery is the synchronous fold on the caller's state. -/
theorem c5_produce_invokes_in_order (ids : List Nat) (s : List Nat) :
    Event.produce
      (ids.foldl (fun ev i => ev.consumed_by (logListener i))
        ⟨"current_path_changed".toList, []⟩) s = s ++ ids := by
  unfold Event.produce
  rw [consumed_by_foldl_listeners]
  simpa using foldl_logListeners ids s

/-! ## Font size (`src/flitz/file_explorer.py`, lines 21-22 and 223-233) -/

/-- Embedding of `MIN_FONT_SIZE = 4`. -/
def MIN_FONT_SIZE : Int := 4

/-- Embedding of `MAX_FONT_SIZE = 40`. -/
def MAX_FONT_SIZE : Int := 40

/-- Embedding of `increase_font_size`:
`if self.cfg.font_size < MAX_FONT_SIZE: self.cfg.font_size += 1`. -/
def increase_font_size (s : Int) : Int :=
  if s < MAX_FONT_SIZE then s + 1 else s

/-- Embedding of `decrease_font_size`:
`if self.cfg.font_size > MIN_FONT_SIZE: self.cfg.font_size -= 1`. -/
def decrease_font_size (s : Int) : Int :=
  if MIN_FONT_SIZE < s then s - 1 else s

/-- One key press: either the increase or the decrease handler. -/
inductive FontOp where
  | inc
  | dec

def applyFontOp (s : Int) : FontOp → Int
  | .inc => increase_font_size s
  | .dec => decrease_font_size s

/-- A sequence of increase/decrease key presses applied to the font size. -/
def applyFontOps (s : Int) (ops : List FontOp) : Int :=
  ops.foldl applyFontOp s

theorem applyFontOps_bounds (ops : List FontOp) (s : Int)
    (h1 : MIN_FONT_SIZE ≤ s) (h2 : s ≤ MAX_FONT_SIZE) :
    MIN_FONT_SIZE ≤ applyFontOps s ops ∧ applyFontOps s ops ≤ MAX_FONT_SIZE := by
  induction ops generalizing s with
  | nil => exact ⟨h1, h2⟩
  | cons op rest ih =>
    apply ih
    · cases op <;>
        simp only [applyFontOps, List.foldl, applyFontOp, increase_font_size,
          decrease_font_size, MIN_FONT_SIZE, MAX_FONT_SIZE] at h1 h2 ⊢ <;>
        split <;> omega
    · cases op <;>
        simp only [applyFontOps, List.foldl, applyFontOp, increase_font_size,
          decrease_font_size, MIN_FONT_SIZE, MAX_FONT_SIZE] at h1 h2 ⊢ <;>
        split <;> omega

/-- C10: the font size stays within `[MIN_FONT_SIZE, MAX_FONT_SIZE] = [4, 40]`
under every sequence of increase/decrease key presses, provided it starts in
that interval; `increase_font_size` adds exactly 1 when the size is below 40
and is the identity otherwise, and `decrease_font_size` subtracts exactly 1
when the size is above 4 and is the identity otherwise. -/
theorem c10_font_size_clamped :
    (∀ s : Int, s < MAX_FONT_SIZE → increase_font_size s = s + 1) ∧
    (∀ s : Int, ¬ s < MAX_FONT_SIZE → increase_font_size s = s) ∧
    (∀ s : Int, MIN_FONT_SIZE < s → decrease_font_size s = s - 1) ∧
    (∀ s : Int, ¬ MIN_FONT_SIZE < s → decrease_font_size s = s) ∧
    (∀ (ops : List FontOp) (s : Int), MIN_FONT_SIZE ≤ s → s ≤ MAX_FONT_SIZE →
      MIN_FONT_SIZE ≤ applyFontOps s ops ∧ applyFontOps s ops ≤ MAX_FONT_SIZE) := by
  refine ⟨fun s h => ?_, fun s h => ?_, fun s h => ?_, fun s h => ?_,
    fun ops s h1 h2 => applyFontOps_bounds ops s h1 h2⟩
  · simp [increase_font_size, h]
  · simp [increase_font_size, h]
  · simp [decrease_font_size, h]
  · simp [decrease_font_size, h]

/-- Concrete instantiation of `c10_font_size_clamped`: starting at size 12,
the sequence inc, dec, dec stays within the bounds; and the boundary key
presses behave as stated at 39, 40, 5 and 4. -/
theorem c10_font_size_clamped_witness :
    increase_font_size 39 = 40 ∧ increase_font_size 40 = 40 ∧
    decrease_font_size 5 = 4 ∧ decrease_font_size 4 = 4 ∧
    (MIN_FONT_SIZE ≤ applyFontOps 12 [FontOp.inc, FontOp.dec, FontOp.dec] ∧
      applyFontOps 12 [FontOp.inc, FontOp.dec, FontOp.dec] ≤ MAX_FONT_SIZE) :=
  ⟨by simpa using c10_font_size_clamped.1 39 (by decide),
   by simpa using c10_font_size_clamped.2.1 40 (by decide),
   by simpa using c10_font_size_clamped.2.2.1 5 (by decide),
   by simpa using c10_font_size_clamped.2.2.2.1 4 (by decide),
   c10_font_size_clamped.2.2.2.2 [FontOp.inc, FontOp.dec, FontOp.dec] 12
     (by decide) (by decide)⟩

/-! ## Directory trees and recursive listings

`LocalFileSystem.list_contents(path, recursive=True)` iterates
`Path(path).rglob("*")`, i.e. every descendant of `path`.
`FTPFileSystem.list_contents(path, recursive=True)` lists the children via
`mlsd()` and, for a sub-directory, calls
`self.list_contents(entry.path, recursive=True)` but DISCARDS the returned
list (the call only populates `self._cache`); only the immediate children
are appended to `contents`.

We model a directory's content as a list of trees.  Paths are joined with
`"/"` (the FTP adapter's `get_absolute_path`; `rglob` similarly yields
paths extending the base path by one component per level).  An entry of a
listing is its absolute path plus its is-file flag; the other fields
(size, timestamps) play no role in C8. -/

/-- A file-system subtree: a file, or a directory with its children. -/
inductive PTree where
  | file (name : List Char)
  | dir (name : List Char) (children : List PTree)

/-- Path join `base + "/" + name` (`get_absolute_path` for a base not ending
in a slash). -/
def pjoin (base name : List Char) : List Char :=
  base ++ '/' :: name

/-- An entry returned by `list_contents`: absolute path and is-file flag. -/
structure PathEntry where
  path : List Char
  is_file : Bool
deriving DecidableEq, Repr

/-- The listing entry of one immediate child of `base`. -/
def childEntry (base : List Char) : PTree → PathEntry
  | .file n => ⟨pjoin base n, true⟩
  | .dir n _ => ⟨pjoin base n, false⟩

mutual
/-- Entries contributed by one subtree to `Path(base).rglob("*")`: the
subtree's own entry followed by all of its descendants. -/
def rglobTree (base : List Char) : PTree → List PathEntry
  | .file n => [⟨pjoin base n, true⟩]
  | .dir n cs => ⟨pjoin base n, false⟩ :: rglobAll (pjoin base n) cs
/-- Embedding of `LocalFileSystem.list_contents(base, recursive=True)`:
all descendants of `base`, via `rglob("*")`. -/
def rglobAll (base : List Char) : List PTree → List PathEntry
  | [] => []
  | t :: ts => rglobTree base t ++ rglobAll base ts
end

/-- Embedding of `FTPFileSystem.list_contents`: the `mlsd()` loop appends
one entry per immediate child; the recursive self-call on a sub-directory
discards its result (it only fills `self._cache`), so the returned list
does not depend on `recursive`. -/
def ftp_list_contents (base : List Char) (recursive : Bool) :
    List PTree → List PathEntry
  | [] => []
  | t :: ts => childEntry base t :: ftp_list_contents base recursive ts

/-- The descendants of `base` in a directory with children `ts`: the
immediate children, and recursively everything below a sub-directory. -/
inductive IsDesc : List Char → List PTree → PathEntry → Prop where
  | child {base : List Char} {ts : List PTree} {t : PTree} :
      t ∈ ts → IsDesc base ts (childEntry base t)
  | deeper {base : List Char} {ts : List PTree} {n : List Char}
      {cs : List PTree} {e : PathEntry} :
      PTree.dir n cs ∈ ts → IsDesc (pjoin base n) cs e → IsDesc base ts e

theorem childEntry_mem_rglobAll {base : List Char} {ts : List PTree} {t : PTree}
    (ht : t ∈ ts) : childEntry base t ∈ rglobAll base ts := by
  induction ts with
  | nil => cases ht
  | cons s rest ih =>
    rcases List.mem_cons.mp ht with h | h
    · subst h
      cases t <;> simp [rglobAll, rglobTree, childEntry]
    · simp only [rglobAll, List.mem_append]
      exact Or.inr (ih h)

theorem rglobAll_closed {base : List Char} {ts : List PTree} {n : List Char}
    {cs : List PTree} {e : PathEntry} (ht : PTree.dir n cs ∈ ts)
    (he : e ∈ rglobAll (pjoin base n) cs) : e ∈ rglobAll base ts := by
  induction ts with
  | nil => cases ht
  | cons s rest ih =>
    rcases List.mem_cons.mp ht with h | h
    · subst h
      simp only [rglobAll, rglobTree, List.mem_append, List.mem_cons]
      exact Or.inl (Or.inr he)
    · simp only [rglobAll, List.mem_append]
      exact Or.inr (ih h)

theorem isDesc_mem_rglobAll {base : List Char} {ts : List PTree}
    {e : PathEntry} (h : IsDesc base ts e) : e ∈ rglobAll base ts := by
  induction h with
  | child ht => exact childEntry_mem_rglobAll ht
  | deeper ht _ ih => exact rglobAll_closed ht ih

/-- C8 (amended): the local adapter's recursive listing contains every
descendant of the listed path; the FTP adapter's listing contains exactly
the immediate children, even with `recursive = true` (the recursive
self-call's result is discarded by the source). -/
theorem c8_recursive_listing (base : List Char) (ts : List PTree) :
    (∀ e : PathEntry, IsDesc base ts e → e ∈ rglobAll base ts) ∧
    (∀ (recursive : Bool) (e : PathEntry),
      e ∈ ftp_list_contents base recursive ts ↔ ∃ t ∈ ts, e = childEntry base t) := by
  refine ⟨fun e h => isDesc_mem_rglobAll h, fun recursive e => ?_⟩
  induction ts with
  | nil => simp [ftp_list_contents]
  | cons t rest ih =>
    simp only [ftp_list_contents, List.mem_cons, ih]
    constructor
    · rintro (h | ⟨u, hu, he⟩)
      · exact ⟨t, Or.inl rfl, h⟩
      · exact ⟨u, Or.inr hu, he⟩
    · rintro ⟨u, hu | hu, he⟩
      · subst hu
        exact Or.inl he
      · exact Or.inr ⟨u, hu, he⟩

/-- The directory used to separate the two adapters' recursive listings:
`/a` contains the folder `b`, and `/a/b` contains the file `c.txt`. -/
def c8ExampleDir : List PTree :=
  [PTree.dir "b".toList [PTree.file "c.txt".toList]]

/-- C8 counterexample: `/a/b/c.txt` is a descendant of `/a` (it appears in
the local adapter's recursive listing) but is absent from the FTP adapter's
`list_contents("/a", recursive=True)`, which returns only the immediate
child `/a/b`.  This refutes the claim for the FTP adapter. -/
theorem c8_ftp_misses_descendant :
    (⟨"/a/b/c.txt".toList, true⟩ : PathEntry) ∈ rglobAll "/a".toList c8ExampleDir ∧
    (⟨"/a/b/c.txt".toList, true⟩ : PathEntry) ∉
      ftp_list_contents "/a".toList true c8ExampleDir ∧
    ftp_list_contents "/a".toList true c8ExampleDir
      = [⟨"/a/b".toList, false⟩] := by
  refine ⟨?_, by decide, by decide⟩
  decide

/-- Concrete instantiation of `c8_recursive_listing`: the deep descendant
`/a/b/c.txt` is produced by the local recursive listing of `/a`, and the
FTP listing of `/a` consists of entries of immediate children only. -/
theorem c8_recursive_listing_witness :
    (⟨"/a/b/c.txt".toList, true⟩ : PathEntry) ∈ rglobAll "/a".toList c8ExampleDir ∧
    ((⟨"/a/b".toList, false⟩ : PathEntry) ∈
        ftp_list_contents "/a".toList true c8ExampleDir ↔
      ∃ t ∈ c8ExampleDir, (⟨"/a/b".toList, false⟩ : PathEntry) = childEntry "/a".toList t) := by
  constructor
  · apply (c8_recursive_listing "/a".toList c8ExampleDir).1
    have h1 : PTree.dir "b".toList [PTree.file "c.txt".toList] ∈ c8ExampleDir :=
      List.mem_singleton.mpr rfl
    have h2 : IsDesc (pjoin "/a".toList "b".toList) [PTree.file "c.txt".toList]
        (childEntry (pjoin "/a".toList "b".toList) (PTree.file "c.txt".toList)) :=
      IsDesc.child (List.mem_singleton.mpr rfl)
    exact IsDesc.deeper h1 h2
  · exact (c8_recursive_listing "/a".toList c8ExampleDir).2 true _

/-! ## Search (`FileExplorer.search_files`)

The source lists `Path(path).iterdir()` — the IMMEDIATE children of
`current_path`, not the recursive listing — sorts them with the usual
`(is_file, name)` key, and keeps an entry iff
`search_term.lower() in entry.name.lower()` (case-insensitive contiguous
substring test on the name). -/

/-- ASCII case folding of one code point, the relevant fragment of Python's
`str.lower()` (the names considered are ASCII). -/
def lowerChar (c : Char) : Char :=
  if 'A' ≤ c ∧ c ≤ 'Z' then Char.ofNat (c.toNat + 32) else c

/-- Embedding of `s.lower()`. -/
def lowerStr (s : List Char) : List Char :=
  s.map lowerChar

/-- Whether `pre` is a leading block of `l` (helper for the substring test). -/
def isPre : List Char → List Char → Bool
  | [], _ => true
  | _ :: _, [] => false
  | a :: as, b :: bs => a == b && isPre as bs

/-- Embedding of Python's `needle in hay` on strings: contiguous substring
(the empty needle is contained in everything). -/
def hasSub (needle : List Char) : List Char → Bool
  | [] => needle.isEmpty
  | c :: rest => isPre needle (c :: rest) || hasSub needle rest

/-- The `FsEntry` view of one `iterdir()` result (its name and kind). -/
def direntOf : PTree → FsEntry
  | .file n => ⟨true, n⟩
  | .dir n _ => ⟨false, n⟩

/-- Embedding of `Path(path).iterdir()` over the modelled directory. -/
def iterdirEntries (ts : List PTree) : List FsEntry :=
  ts.map direntOf

/-- Embedding of `FileExplorer.search_files`: sort the immediate children by
`(is_file, name)` and keep those whose lower-cased name contains the
lower-cased search term. -/
def search_files (term : List Char) (l : List FsEntry) : List FsEntry :=
  (sortEntries l).filter (fun e => hasSub (lowerStr term) (lowerStr e.name))

/-- C4 (amended): `search_files` renders a case-insensitive substring match
on the entry name over the IMMEDIATE children of `current_path` (the source
uses `iterdir()`, not a recursive listing): an entry is in the result iff it
is an immediate child whose lower-cased name contains the lower-cased term. -/
theorem c4_search_is_nonrecursive_substring_match (term : List Char)
    (l : List FsEntry) (e : FsEntry) :
    e ∈ search_files term l ↔
      e ∈ l ∧ hasSub (lowerStr term) (lowerStr e.name) = true := by
  simp [search_files, sortEntries, List.mem_filter, List.mem_insertionSort]

/-- The directory of the claim's own scenario: `/a` contains `foo.txt`,
the folder `b` (which contains `foobar.txt`), and `bar.txt`. -/
def c4ExampleDir : List PTree :=
  [PTree.file "foo.txt".toList,
   PTree.dir "b".toList [PTree.file "foobar.txt".toList],
   PTree.file "bar.txt".toList]

/-- C4 counterexample: searching `"foo"` under `/a` (which contains
`/a/foo.txt`, `/a/b/foobar.txt`, `/a/bar.txt`) yields only `foo.txt`:
`foobar.txt` is NOT in the result even though it matches and is in the
recursive listing under `/a`, because `search_files` iterates `iterdir()`
non-recursively.  This refutes the claimed result set
`{foo.txt, foobar.txt}`. -/
theorem c4_search_misses_deep_match :
    (search_files "foo".toList (iterdirEntries c4ExampleDir)).map FsEntry.name
      = ["foo.txt".toList] ∧
    "foobar.txt".toList ∉
      (search_files "foo".toList (iterdirEntries c4ExampleDir)).map FsEntry.name ∧
    (⟨"/a/b/foobar.txt".toList, true⟩ : PathEntry) ∈
      rglobAll "/a".toList c4ExampleDir := by
  refine ⟨by decide, by decide, by decide⟩

/-! ## Going up (`LocalFileSystem.go_up` and `FTPFileSystem.go_up`)

`LocalFileSystem.go_up` is `os.path.dirname(path)`; on POSIX that is
(CPython `posixpath.dirname`):
```
i = p.rfind('/') + 1
head = p[:i]
if head and head != '/'*len(head):
    head = head.rstrip('/')
return head
```
`FTPFileSystem.go_up` returns `path` unchanged for `"/"` and otherwise
`"/".join(path.split("/")[:-1])`. -/

/-- Whether a string consists only of slashes (`head == '/'*len(head)`). -/
def allSlash (l : List Char) : Bool :=
  l.all (fun c => c == '/')

/-- Embedding of `head.rstrip('/')`: remove trailing slashes. -/
def rstripSlash (l : List Char) : List Char :=
  (l.reverse.dropWhile (fun c => c == '/')).reverse

/-- The prefix `p[:p.rfind('/') + 1]`: everything up to and including the
last slash (empty when there is no slash). -/
def dirnameHead (p : List Char) : List Char :=
  (p.reverse.dropWhile (fun c => ! (c == '/'))).reverse

/-- Embedding of `posixpath.dirname`, hence of `LocalFileSystem.go_up`. -/
def dirname (p : List Char) : List Char :=
  if (dirnameHead p).isEmpty || allSlash (dirnameHead p) then dirnameHead p
  else rstripSlash (dirnameHead p)

/-- Embedding of `LocalFileSystem.go_up(path) = os.path.dirname(path)`. -/
def local_go_up (p : List Char) : List Char :=
  dirname p

/-- Accumulator-based embedding of `path.split("/")`. -/
def splitSlashAux : List Char → List Char → List (List Char)
  | [], acc => [acc.reverse]
  | c :: rest, acc =>
    if c == '/' then acc.reverse :: splitSlashAux rest []
    else splitSlashAux rest (c :: acc)

/-- Embedding of Python's `path.split("/")`. -/
def splitSlash (p : List Char) : List (List Char) :=
  splitSlashAux p []

/-- Embedding of `"/".join(parts)`. -/
def joinSlash : List (List Char) → List Char
  | [] => []
  | [x] => x
  | x :: y :: rest => x ++ '/' :: joinSlash (y :: rest)

/-- Embedding of `FTPFileSystem.go_up`. -/
def ftp_go_up (path : List Char) : List Char :=
  if path = "/".toList then path
  else joinSlash (splitSlash path).dropLast

theorem splitSlashAux_no_slash {l : List Char} (h : '/' ∉ l) (acc : List Char) :
    splitSlashAux l acc = [acc.reverse ++ l] := by
  induction l generalizing acc with
  | nil => simp [splitSlashAux]
  | cons c rest ih =>
    have hc : (c == '/') = false := by
      simp only [beq_eq_false_iff_ne, ne_eq]
      intro hh
      exact h (hh ▸ List.mem_cons_self c rest)
    have hrest : '/' ∉ rest := fun hm => h (List.mem_cons_of_mem c hm)
    simp [splitSlashAux, hc, ih hrest]

theorem dirnameHead_of_abs (t : List Char) :
    ∃ u : List Char, dirnameHead ('/' :: t) = '/' :: u := by
  unfold dirnameHead
  rw [show ('/' :: t).reverse = t.reverse ++ ['/'] by simp, List.dropWhile_append]
  split
  · exact ⟨[], by simp [List.dropWhile]⟩
  · exact ⟨(List.dropWhile (fun c => ! (c == '/')) t.reverse).reverse, by simp⟩

theorem rstripSlash_head_slash (u : List Char) (h : ¬ allSlash ('/' :: u) = true) :
    ∃ v, rstripSlash ('/' :: u) = '/' :: v := by
  unfold rstripSlash
  rw [show ('/' :: u).reverse = u.reverse ++ ['/'] by simp, List.dropWhile_append]
  split
  · rename_i hemp
    exfalso
    apply h
    rw [List.isEmpty_iff] at hemp
    rw [List.dropWhile_eq_nil_iff] at hemp
    simp only [allSlash, List.all_cons, Bool.and_eq_true, beq_self_eq_true, true_and]
    rw [List.all_eq_true]
    intro x hx
    exact hemp x (List.mem_reverse.mpr hx)
  · exact ⟨(List.dropWhile (fun c => c == '/') u.reverse).reverse, by simp⟩

theorem dirname_abs (p : List Char) (h : p.head? = some '/') :
    (dirname p).head? = some '/' := by
  obtain ⟨t, rfl⟩ : ∃ t, p = '/' :: t := by
    cases p with
    | nil => cases h
    | cons c rest =>
      refine ⟨rest, ?_⟩
      simp only [List.head?_cons, Option.some.injEq] at h
      rw [h]
  obtain ⟨u, hu⟩ := dirnameHead_of_abs t
  unfold dirname
  rw [hu]
  split
  · simp
  · rename_i hcond
    have hns : ¬ allSlash ('/' :: u) = true := by
      intro hh
      exact hcond (by simp [hh])
    obtain ⟨v, hv⟩ := rstripSlash_head_slash u hns
    rw [hv]
    simp

/-- C2 (amended): `go_up` applied to the mount root `"/"` returns `"/"`
unchanged for both the local and the FTP adapter, and the local adapter's
`go_up` maps every absolute path to an absolute path, so it never leaves the
local `"/"` mount.  (The FTP adapter's `go_up` CAN leave the mount on
non-root paths; see the counterexample.) -/
theorem c2_go_up_root_is_noop :
    local_go_up "/".toList = "/".toList ∧
    ftp_go_up "/".toList = "/".toList ∧
    ∀ p : List Char, p.head? = some '/' → (local_go_up p).head? = some '/' := by
  refine ⟨by decide, by decide, fun p h => dirname_abs p h⟩

/-- Concrete instantiation of `c2_go_up_root_is_noop`: `"/home"` is absolute
and `local_go_up` keeps it absolute (it yields `"/"`). -/
theorem c2_go_up_root_is_noop_witness :
    "/home".toList.head? = some '/' ∧ (local_go_up "/home".toList).head? = some '/' :=
  ⟨by decide, c2_go_up_root_is_noop.2.2 "/home".toList (by decide)⟩

/-- C2 counterexample: on the single-component path `"/pub"` inside the FTP
mount rooted at `"/"`, `FTPFileSystem.go_up` returns `""`, which is not
`"/"` and not an absolute path under the mount root — refuting the part of
the claim that `go_up` never yields a path outside the configured mount. -/
theorem c2_ftp_go_up_leaves_mount :
    ftp_go_up "/pub".toList = [] ∧
    ftp_go_up "/pub".toList ≠ "/".toList ∧
    (ftp_go_up "/pub".toList).head? ≠ some '/' := by
  refine ⟨by decide, by decide, by decide⟩

/-- C9: for every single-component absolute path `"/" + name` (with `name`
non-empty and slash-free), `FTPFileSystem.go_up` returns the empty string
`""` — not the root `"/"` — so `go_up` of a non-root path can produce a
result that is not an absolute path. -/
theorem c9_ftp_go_up_single_component (name : List Char)
    (h1 : name ≠ []) (h2 : '/' ∉ name) :
    ftp_go_up ('/' :: name) = [] ∧
    (ftp_go_up ('/' :: name)).head? ≠ some '/' := by
  have hne : ('/' :: name) ≠ "/".toList := by
    intro hh
    apply h1
    have h3 := congrArg List.tail hh
    simpa using h3
  have hsplit : splitSlash ('/' :: name) = [[], name] := by
    simp [splitSlash, splitSlashAux, splitSlashAux_no_slash h2]
  have hzero : ftp_go_up ('/' :: name) = [] := by
    simp [ftp_go_up, hne, hsplit, joinSlash, List.dropLast, h1]
  exact ⟨hzero, by simp [hzero]⟩

/-- Concrete instantiation of `c9_ftp_go_up_single_component` at `"/pub"`. -/
theorem c9_ftp_go_up_single_component_witness :
    ftp_go_up "/pub".toList = [] ∧
    (ftp_go_up "/pub".toList).head? ≠ some '/' :=
  c9_ftp_go_up_single_component "pub".toList (by decide) (by decide)

/-! ## File creation (`LocalFileSystem.create_file`,
`FileExplorer.create_empty_file`)

`LocalFileSystem.create_file` runs `open(path, "wb")` + `write(contents)`:
it creates the file or TRUNCATES an existing one, with no existence check
and no error.  `FileExplorer.create_empty_file` first checks
`new_file_path.exists()` and shows the error dialog "File already exists."
without touching the file.  Disk state is modelled as an association list
from path to file contents (bytes). -/

abbrev DiskState := List (List Char × List Nat)

/-- The contents stored at a path, if a file is there. -/
def fsLookup (p : List Char) : DiskState → Option (List Nat)
  | [] => none
  | e :: rest => if e.1 = p then some e.2 else fsLookup p rest

/-- Embedding of `LocalFileSystem.create_file`:
`with open(path, "wb") as file: file.write(contents)` — create or
truncate-and-overwrite, unconditionally. -/
def create_file (fs : DiskState) (path : List Char) (contents : List Nat) :
    DiskState :=
  if (fsLookup path fs).isSome then
    fs.map (fun e => if e.1 = path then (path, contents) else e)
  else (path, contents) :: fs

/-- Embedding of `FileExplorer.create_empty_file`: `askstring` may return
`None` or an empty name (both are no-ops); if the target exists the dialog
"File already exists." is shown and nothing is written; otherwise
`open(new_file_path, "w")` creates an empty file.  Returns the new disk
state and the error dialog text, if any. -/
def create_empty_file (fs : DiskState) (current_path : List Char)
    (file_name : Option (List Char)) : DiskState × Option (List Char) :=
  match file_name with
  | none => (fs, none)
  | some nm =>
    if nm = [] then (fs, none)
    else
      match fsLookup (pjoin current_path nm) fs with
      | some _ => (fs, some "File already exists.".toList)
      | none => ((pjoin current_path nm, []) :: fs, none)

theorem fsLookup_overwrite (fs : DiskState) (p : List Char) (c : List Nat)
    (h : (fsLookup p fs).isSome) :
    fsLookup p (fs.map (fun e => if e.1 = p then (p, c) else e)) = some c := by
  induction fs with
  | nil => simp [fsLookup] at h
  | cons e rest ih =>
    by_cases hep : e.1 = p
    · simp [fsLookup, hep]
    · have h2 : (fsLookup p rest).isSome := by
        simpa [fsLookup, hep] using h
      simp [fsLookup, hep, ih h2]

theorem fsLookup_create_file (fs : DiskState) (p : List Char) (c : List Nat) :
    fsLookup p (create_file fs p c) = some c := by
  unfold create_file
  split
  · rename_i hs
    exact fsLookup_overwrite fs p c hs
  · simp [fsLookup]

/-- The disk used against C3: `/a/f.txt` exists with contents `[1]`. -/
def c3Disk : DiskState := [("/a/f.txt".toList, [1])]

/-- C3 counterexample: invoking the adapter-level file-creation operation
`LocalFileSystem.create_file` on the existing path `/a/f.txt` is NOT
rejected: it succeeds and replaces the contents `[1]` with `[2]`, so the
pre-existing file is truncated/overwritten. -/
theorem c3_create_file_overwrites :
    fsLookup "/a/f.txt".toList (create_file c3Disk "/a/f.txt".toList [2]) = some [2] ∧
    fsLookup "/a/f.txt".toList (create_file c3Disk "/a/f.txt".toList [2]) ≠ some [1] := by
  refine ⟨by decide, by decide⟩

/-- C3 (amended): the UI-level `create_empty_file` rejects an existing
target with the distinct dialog "File already exists." and leaves the disk
(and hence the file's contents) unchanged; the adapter-level `create_file`
instead creates-or-overwrites unconditionally. -/
theorem c3_create_empty_file_rejects_existing (fs : DiskState)
    (cur nm : List Char) (c : List Nat) (hnm : nm ≠ [])
    (hex : fsLookup (pjoin cur nm) fs = some c) :
    create_empty_file fs cur (some nm) = (fs, some "File already exists.".toList) ∧
    fsLookup (pjoin cur nm) (create_empty_file fs cur (some nm)).1 = some c ∧
    ∀ contents : List Nat,
      fsLookup (pjoin cur nm) (create_file fs (pjoin cur nm) contents) = some contents := by
  have h1 : create_empty_file fs cur (some nm)
      = (fs, some "File already exists.".toList) := by
    simp [create_empty_file, hnm, hex]
  exact ⟨h1, by rw [h1]; exact hex, fun contents => fsLookup_create_file fs _ contents⟩

/-- Concrete instantiation of `c3_create_empty_file_rejects_existing` on
`c3Disk` with name `f.txt` under `/a`. -/
theorem c3_create_empty_file_rejects_existing_witness :
    create_empty_file c3Disk "/a".toList (some "f.txt".toList)
      = (c3Disk, some "File already exists.".toList) ∧
    fsLookup (pjoin "/a".toList "f.txt".toList)
      (create_empty_file c3Disk "/a".toList (some "f.txt".toList)).1 = some [1] ∧
    ∀ contents : List Nat,
      fsLookup (pjoin "/a".toList "f.txt".toList)
        (create_file c3Disk (pjoin "/a".toList "f.txt".toList) contents) = some contents :=
  c3_create_empty_file_rejects_existing c3Disk "/a".toList "f.txt".toList [1]
    (by decide) (by decide)

/-! ## Single-entry stat lookup (`LocalFileSystem.get_file_or_folder` and
`LocalFileSystem._handle_entry_in_list_contents`)

A `PathView` is what the OS reports about one path at handling time:
`is_dir()` (which returns `False` when the entry no longer exists) and
`stat()` (`none` models a raised `FileNotFoundError`).  The race of C6 —
the entry disappears between discovery and the stat call — is the view
`isDir = false, statResult = none`. -/

structure StatResult where
  st_size : Nat
  st_ctime : Nat
  st_mtime : Nat
deriving DecidableEq, Repr

structure PathView where
  name : List Char
  path : List Char
  suffix : List Char
  isDir : Bool
  statResult : Option StatResult
deriving DecidableEq, Repr

/-- The `File` / `Folder` records of `flitz/file_systems/__init__.py`;
a `File`'s size and timestamps are nullable. -/
inductive Entry where
  | file (name path type : List Char) (file_size : Option Nat)
      (created_at last_modified_at : Option Nat)
  | folder (name path : List Char) (last_modified_at : Nat)
deriving DecidableEq, Repr

/-- Embedding of `LocalFileSystem.get_file_or_folder`: both branches call
`p.stat()` with no `try/except`, so a vanished path raises
(`Except.error`). -/
def get_file_or_folder (v : PathView) : Except (List Char) Entry :=
  if v.isDir then
    match v.statResult with
    | some st => .ok (.folder v.name v.path st.st_mtime)
    | none => .error "FileNotFoundError".toList
  else
    match v.statResult with
    | some st => .ok (.file v.name v.path v.suffix (some st.st_size)
        (some st.st_ctime) (some st.st_mtime))
    | none => .error "FileNotFoundError".toList

/-- Embedding of `LocalFileSystem._handle_entry_in_list_contents`: the file
branch wraps `item.stat()` in `try/except FileNotFoundError` and on failure
builds the `File` with `None` size and timestamps; the folder branch stats
unguarded. -/
def handle_entry_in_list_contents (v : PathView) : Except (List Char) Entry :=
  if v.isDir then
    match v.statResult with
    | some st => .ok (.folder v.name v.path st.st_mtime)
    | none => .error "FileNotFoundError".toList
  else
    match v.statResult with
    | some st => .ok (.file v.name v.path v.suffix (some st.st_size)
        (some st.st_ctime) (some st.st_mtime))
    | none => .ok (.file v.name v.path v.suffix none none none)

/-- The view of `/a/f.txt` after it was discovered and then deleted before
the stat call: `is_dir()` is `False` and `stat()` raises. -/
def vanishedView : PathView :=
  ⟨"f.txt".toList, "/a/f.txt".toList, ".txt".toList, false, none⟩

/-- C6 counterexample: on a path that disappears between discovery and the
stat lookup, `get_file_or_folder` RAISES (`FileNotFoundError` propagates
from the unguarded `p.stat()`) instead of returning an entry with null size
and timestamps. -/
theorem c6_get_file_or_folder_raises :
    get_file_or_folder vanishedView = .error "FileNotFoundError".toList := by
  rfl

/-- C6 (amended): on a path whose entry disappears between discovery and
the stat lookup, `get_file_or_folder` propagates the `FileNotFoundError`;
it is the per-entry listing helper `_handle_entry_in_list_contents` that
returns a `File` with null (`none`) size and timestamps rather than
raising. -/
theorem c6_vanished_entry_behavior (v : PathView)
    (hdir : v.isDir = false) (hstat : v.statResult = none) :
    get_file_or_folder v = .error "FileNotFoundError".toList ∧
    handle_entry_in_list_contents v
      = .ok (.file v.name v.path v.suffix none none none) := by
  constructor
  · simp [get_file_or_folder, hdir, hstat]
  · simp [handle_entry_in_list_contents, hdir, hstat]

/-- Concrete instantiation of `c6_vanished_entry_behavior` at the vanished
view of `/a/f.txt`. -/
theorem c6_vanished_entry_behavior_witness :
    get_file_or_folder vanishedView = .error "FileNotFoundError".toList ∧
    handle_entry_in_list_contents vanishedView
      = .ok (.file vanishedView.name vanishedView.path vanishedView.suffix
          none none none) :=
  c6_vanished_entry_behavior vanishedView (by decide) (by decide)


/-! ## Multi-item deletion (`src/flitz/actions/deletion.py`)

`confirm_delete_item` loops over the selection; for every confirmed item it
calls `delete_item`, which unlinks a file / removes a directory inside
`try/except OSError`; a failure produces one error dialog and the loop goes
on with the remaining items.  Entries live at `current_path / name`; the
`locked` predicate marks paths whose removal raises `OSError` (permission
denied). -/

inductive FKind where
  | file
  | dir
deriving DecidableEq, Repr

/-- Whether some entry lives at path `p`. -/
def pathPresent (p : List Char) (es : List (List Char × FKind)) : Bool :=
  es.any (fun e => e.1 == p)

/-- Removal of the entry at `p` (`unlink` / `rmdir`). -/
def removeEntry (p : List Char) :
    List (List Char × FKind) → List (List Char × FKind)
  | [] => []
  | e :: rest => if e.1 == p then rest else e :: removeEntry p rest

/-- Embedding of `DeletionMixIn.delete_item`: build
`Path(self.current_path) / selected_file`; if a file or directory is there,
unlink/rmdir it — `except OSError` turns a failure into exactly one error
dialog and leaves the entry in place; a vanished path is a no-op.  `locked`
marks the paths whose removal the OS refuses with `OSError`. -/
def delete_item (locked : List Char → Bool)
    (entries : List (List Char × FKind)) (cur nm : List Char) :
    List (List Char × FKind) × List (List Char) :=
  if pathPresent (pjoin cur nm) entries then
    if locked (pjoin cur nm) then
      (entries, ["Failed to delete ".toList ++ pjoin cur nm])
    else
      (removeEntry (pjoin cur nm) entries, [])
  else (entries, [])

/-- Embedding of the `confirm_delete_item` loop: every selected item is
confirmed and then attempted independently; error dialogs accumulate in
order. -/
def confirm_delete_item (locked : List Char → Bool) (cur : List Char)
    (confirm : List Char → Bool) :
    List (List Char × FKind) → List (List Char) →
      List (List Char × FKind) × List (List Char)
  | entries, [] => (entries, [])
  | entries, nm :: rest =>
    if confirm nm then
      let r := delete_item locked entries cur nm
      let rr := confirm_delete_item locked cur confirm r.1 rest
      (rr.1, r.2 ++ rr.2)
    else confirm_delete_item locked cur confirm entries rest

theorem pathPresent_removeEntry (p q : List Char)
    (es : List (List Char × FKind)) (h : q ≠ p) :
    pathPresent q (removeEntry p es) = pathPresent q es := by
  induction es with
  | nil => rfl
  | cons e rest ih =>
    by_cases hep : e.1 = p
    · have hb : (e.1 == p) = true := by simp [hep]
      have hq : (e.1 == q) = false := by
        simp only [beq_eq_false_iff_ne, ne_eq, hep]
        exact fun hh => h hh.symm
      simp [removeEntry, pathPresent, hb, hq]
    · have hb : (e.1 == p) = false := by simp [hep]
      simp only [removeEntry, hb, Bool.false_eq_true, if_false]
      simp only [pathPresent, List.any_cons] at ih ⊢
      rw [ih]

theorem removeEntry_length (p : List Char) (es : List (List Char × FKind))
    (h : pathPresent p es = true) :
    (removeEntry p es).length + 1 = es.length := by
  induction es with
  | nil => simp [pathPresent] at h
  | cons e rest ih =>
    by_cases hep : e.1 = p
    · have hb : (e.1 == p) = true := by simp [hep]
      simp [removeEntry, hb]
    · have hb : (e.1 == p) = false := by simp [hep]
      have h2 : pathPresent p rest = true := by
        unfold pathPresent at h ⊢
        rw [List.any_cons, hb, Bool.false_or] at h
        exact h
      have h3 := ih h2
      simp only [removeEntry, hb, Bool.false_eq_true, if_false, List.length_cons]
      omega

theorem filter_length_split {α : Type} (p : α → Bool) (l : List α) :
    (l.filter p).length + (l.filter (fun a => ! p a)).length = l.length := by
  induction l with
  | nil => rfl
  | cons a rest ih =>
    by_cases hp : p a = true
    · simp only [List.filter, hp, Bool.not_true, List.length_cons]
      omega
    · have hp2 : p a = false := by simpa using hp
      simp only [List.filter, hp2, Bool.not_false, List.length_cons]
      omega

theorem confirm_delete_spec (locked : List Char → Bool) (cur : List Char)
    (confirm : List Char → Bool) :
    ∀ (selection : List (List Char)) (entries : List (List Char × FKind)),
    (selection.map (pjoin cur)).Nodup →
    (∀ nm ∈ selection, pathPresent (pjoin cur nm) entries = true) →
    (∀ nm ∈ selection, confirm nm = true) →
    (confirm_delete_item locked cur confirm entries selection).2.length
        = (selection.filter (fun nm => locked (pjoin cur nm))).length ∧
    (confirm_delete_item locked cur confirm entries selection).1.length
        + (selection.filter (fun nm => ! locked (pjoin cur nm))).length
        = entries.length := by
  intro selection
  induction selection with
  | nil =>
    intro entries _ _ _
    simp [confirm_delete_item]
  | cons nm rest ih =>
    intro entries hnodup hpresent hconf
    have hcnm : confirm nm = true := hconf nm (List.mem_cons_self nm rest)
    have hpnm : pathPresent (pjoin cur nm) entries = true :=
      hpresent nm (List.mem_cons_self nm rest)
    have hnodup2 : (rest.map (pjoin cur)).Nodup := by
      simpa using hnodup.of_cons
    have hconf2 : ∀ x ∈ rest, confirm x = true :=
      fun x hx => hconf x (List.mem_cons_of_mem nm hx)
    by_cases hl : locked (pjoin cur nm) = true
    · have hdel : delete_item locked entries cur nm
          = (entries, ["Failed to delete ".toList ++ pjoin cur nm]) := by
        simp [delete_item, hpnm, hl]
      have ihr := ih entries hnodup2
        (fun x hx => hpresent x (List.mem_cons_of_mem nm hx)) hconf2
      simp only [confirm_delete_item, hcnm, if_true, hdel, List.length_append,
        List.length_cons, List.length_nil, List.filter, hl, Bool.not_true]
      constructor
      · rw [ihr.1]
        omega
      · exact ihr.2
    · have hl2 : locked (pjoin cur nm) = false := by simpa using hl
      have hdel : delete_item locked entries cur nm
          = (removeEntry (pjoin cur nm) entries, []) := by
        simp [delete_item, hpnm, hl2]
      have hpres2 : ∀ x ∈ rest,
          pathPresent (pjoin cur x) (removeEntry (pjoin cur nm) entries) = true := by
        intro x hx
        have hne : pjoin cur x ≠ pjoin cur nm := by
          intro hh
          have hmem : pjoin cur nm ∈ rest.map (pjoin cur) :=
            hh ▸ List.mem_map_of_mem (pjoin cur) hx
          exact (List.nodup_cons.mp hnodup).1 hmem
        rw [pathPresent_removeEntry _ _ _ hne]
        exact hpresent x (List.mem_cons_of_mem nm hx)
      have ihr := ih (removeEntry (pjoin cur nm) entries) hnodup2 hpres2 hconf2
      have hlen := removeEntry_length (pjoin cur nm) entries hpnm
      simp only [confirm_delete_item, hcnm, if_true, hdel, List.nil_append,
        List.filter, hl2, Bool.not_false]
      constructor
      · exact ihr.1
      · have h5 := ihr.2
        simp only [List.length_cons]
        omega

/-- C7: when N selected entries are deleted and exactly one deletion fails
with `OSError` (one locked path), every item is still attempted
independently: exactly one error dialog is produced and the resulting
entry list reflects N-1 removals. -/
theorem c7_deletion_partial_failure (locked : List Char → Bool)
    (cur : List Char) (confirm : List Char → Bool)
    (entries : List (List Char × FKind)) (selection : List (List Char))
    (hnodup : (selection.map (pjoin cur)).Nodup)
    (hpresent : ∀ nm ∈ selection, pathPresent (pjoin cur nm) entries = true)
    (hconf : ∀ nm ∈ selection, confirm nm = true)
    (hone : (selection.filter (fun nm => locked (pjoin cur nm))).length = 1) :
    (confirm_delete_item locked cur confirm entries selection).2.length = 1 ∧
    (confirm_delete_item locked cur confirm entries selection).1.length
        + (selection.length - 1) = entries.length := by
  obtain ⟨herr, hent⟩ :=
    confirm_delete_spec locked cur confirm selection entries hnodup hpresent hconf
  refine ⟨by rw [herr, hone], ?_⟩
  have hsplit := filter_length_split (fun nm => locked (pjoin cur nm)) selection
  have hge : 1 ≤ selection.length := by
    have h6 := List.length_filter_le (fun nm => locked (pjoin cur nm)) selection
    omega
  omega

/-- The deletion scenario: `/a` holds `x`, `y`, `z`; removing `/a/y` raises
`OSError` (permission denied), the other two succeed. -/
def c7Entries : List (List Char × FKind) :=
  [("/a/x".toList, FKind.file), ("/a/y".toList, FKind.file),
   ("/a/z".toList, FKind.file)]

/-- Removal of `/a/y` is refused by the OS. -/
def c7Locked : List Char → Bool :=
  fun p => p == "/a/y".toList

/-- Concrete instantiation of `c7_deletion_partial_failure`: deleting the
confirmed selection x, y, z from `c7Entries` (where only `/a/y` is locked)
yields exactly one error dialog and a listing with N-1 = 2 removals. -/
theorem c7_deletion_partial_failure_witness :
    (confirm_delete_item c7Locked "/a".toList (fun _ => true) c7Entries
        ["x".toList, "y".toList, "z".toList]).2.length = 1 ∧
    (confirm_delete_item c7Locked "/a".toList (fun _ => true) c7Entries
        ["x".toList, "y".toList, "z".toList]).1.length
      + (["x".toList, "y".toList, "z".toList].length - 1)
      = c7Entries.length :=
  c7_deletion_partial_failure c7Locked "/a".toList (fun _ => true) c7Entries
    ["x".toList, "y".toList, "z".toList] (by decide) (by decide)
    (fun _ _ => rfl) (by decide)

end Flitz
